import Mathlib

/-!
Verification of the HTTP/3 stream framer (`internal/http3/stream.go`).

The Go `stream` type wraps a `quic.Stream` transport and a read limit
`lim : int64` (`-1` = no active frame, `≥ 0` = bytes remaining in the open
frame).  We embed the transport as the list of bytes it will still deliver
(`Option (List Nat)`; `none` models the nil handle installed by
`recordBytesRead` on poisoning — a read through `none` is a Go nil-pointer
panic).  Machine `int64` values are `Int` (no operation here can overflow
64 bits: decoded varints fit in 62 bits, and `lim` only ever decreases by
byte counts).  Bytes are `Nat` values `< 256`.
-/

namespace Http3

/-- Error values that the framer can return: `io.EOF`, `io.ErrUnexpectedEOF`
(produced by `io.ReadFull` after a partial read), and `errH3FrameError`. -/
inductive Err where
  | eof
  | unexpectedEOF
  | frameError
  deriving DecidableEq, Repr

/-- The framer state: the transport handle (`none` = nil, poisoned) and the
read limit `lim` (`-1` means no limit). -/
structure St where
  strm : Option (List Nat)
  lim : Int
  deriving DecidableEq, Repr

/-- Outcome of a framer operation: a value with the successor state, an error
with the successor state, or a Go runtime panic (process abort). -/
inductive Res (α : Type) where
  | ok (a : α) (s : St)
  | err (e : Err) (s : St)
  | panicked
  deriving DecidableEq, Repr

/-- `st.stream.ReadByte()` on the transport: nil handle panics, an exhausted
transport reports `io.EOF`, otherwise one byte is consumed. -/
def quicReadByte (st : St) : Res Nat :=
  match st.strm with
  | none => .panicked
  | some [] => .err .eof st
  | some (b :: rest) => .ok b { st with strm := some rest }

/-- `st.stream.Read(b)` with a buffer of size `len`: delivers
`min len available` bytes in one call, `io.EOF` on an exhausted transport,
panic on a nil handle. -/
def quicRead (st : St) (len : Nat) : Res (List Nat) :=
  match st.strm with
  | none => .panicked
  | some bs =>
    if len = 0 then .ok [] st
    else match bs with
      | [] => .err .eof st
      | _ => .ok (bs.take len) { st with strm := some (bs.drop len) }

/-- `recordBytesRead`: charge `n` bytes against the read limit.  No-op when
`lim < 0`; otherwise subtract, and if the result is negative discard the
transport handle (`strm := none`) and fail with `errH3FrameError`. -/
def recordBytesRead (st : St) (n : Nat) : Res Unit :=
  if st.lim < 0 then .ok () st
  else
    let lim' := st.lim - n
    if lim' < 0 then .err .frameError { strm := none, lim := lim' }
    else .ok () { st with lim := lim' }

/-- `stream.ReadByte`: charge 1 byte first, then read from the transport;
a transport `io.EOF` passes through, any other transport error becomes
`errH3FrameError`. -/
def streamReadByte (st : St) : Res Nat :=
  match recordBytesRead st 1 with
  | .panicked => .panicked
  | .err e s => .err e s
  | .ok _ s =>
    match quicReadByte s with
    | .panicked => .panicked
    | .err e s' => if e = .eof then .err .eof s' else .err .frameError s'
    | .ok b s' => .ok b s'

/-- `stream.Read`: read from the transport (EOF passes through, other errors
become `errH3FrameError`), then charge the bytes actually read. -/
def streamRead (st : St) (len : Nat) : Res (List Nat) :=
  match quicRead st len with
  | .panicked => .panicked
  | .err e s => if e = .eof then .err .eof s else .err .frameError s
  | .ok bs s =>
    match recordBytesRead s bs.length with
    | .panicked => .panicked
    | .err e s' => .err e s'
    | .ok _ s' => .ok bs s'

/-- The `for i := 1; i < n; i++` loop of `stream.readVarint`: read `k` more
bytes directly from the transport, accumulating `v = (v << 8) | b`; any
read error there becomes `errH3FrameError`. -/
def readVarintLoop (v : Nat) (s : St) : Nat → Res Nat
  | 0 => .ok v s
  | k + 1 =>
    match quicReadByte s with
    | .panicked => .panicked
    | .err _ s' => .err .frameError s'
    | .ok b s' => readVarintLoop ((v <<< 8) ||| b) s' k

/-- `stream.readVarint`: read the first byte (its error is returned
unchanged), derive the total length `n = 1 << (b >> 6)`, read the remaining
`n - 1` bytes, then charge all `n` bytes via `recordBytesRead`.  The
accumulator is a `Nat`: the decoded value occupies at most 62 bits, so the
Go `int64` cannot overflow and stays non-negative. -/
def readVarint (st : St) : Res Nat :=
  match quicReadByte st with
  | .panicked => .panicked
  | .err e s => .err e s
  | .ok b s =>
    let n := 1 <<< (b >>> 6)
    match readVarintLoop (b &&& 63) s (n - 1) with
    | .panicked => .panicked
    | .err e s' => .err e s'
    | .ok v s' =>
      match recordBytesRead s' n with
      | .panicked => .panicked
      | .err e s'' => .err e s''
      | .ok _ s'' => .ok v s''

/-- `stream.readFrameHeader`: refuse if a frame is already open
(`lim ≥ 0`), else decode the frame type and size varints and set
`lim := size`. -/
def readFrameHeader (st : St) : Res Nat :=
  if 0 ≤ st.lim then .err .frameError st
  else
    match readVarint st with
    | .panicked => .panicked
    | .err e s => .err e s
    | .ok ftype s =>
      match readVarint s with
      | .panicked => .panicked
      | .err e s' => .err e s'
      | .ok size s' => .ok ftype { s' with lim := (size : Int) }

/-- `stream.endFrame`: fails with `errH3FrameError` unless `lim = 0`;
on success resets `lim := -1`. -/
def endFrame (st : St) : Res Unit :=
  if st.lim ≠ 0 then .err .frameError st
  else .ok () { st with lim := -1 }

/-- Intermediate result of the `io.ReadAtLeast` loop: bytes collected so
far, the terminating read error if any, and the final state. -/
inductive RFRes where
  | res (bytes : List Nat) (e : Option Err) (s : St)
  | panicked
  deriving DecidableEq, Repr

/-- The loop of `io.ReadAtLeast(st, buf, want)` driven by `stream.Read`:
keep reading until `want` bytes are collected or a read errors.  (In this
model a successful `Read` with `want > 0` always returns at least one byte,
so the `.ok []` branch is unreachable.) -/
def readAtLeastLoop (st : St) : Nat → RFRes
  | 0 => .res [] none st
  | want@(_ + 1) =>
    match streamRead st want with
    | .panicked => .panicked
    | .err e s => .res [] (some e) s
    | .ok [] s => .res [] none s
    | .ok (b :: bs) s =>
      match readAtLeastLoop s (want - (b :: bs).length) with
      | .panicked => .panicked
      | .res rest e s' => .res (b :: bs ++ rest) e s'
  termination_by want => want
  decreasing_by simp; omega

/-- `io.ReadFull(st, b)` with `len b = want`: run the `ReadAtLeast` loop;
if fewer than `want` bytes arrived and the read stopped at `io.EOF`, report
`io.ErrUnexpectedEOF` when some bytes had been read, `io.EOF` otherwise. -/
def ioReadFull (st : St) (want : Nat) : Res (List Nat) :=
  match readAtLeastLoop st want with
  | .panicked => .panicked
  | .res bytes e s =>
    if want ≤ bytes.length then .ok bytes s
    else
      match e with
      | some .eof => if 0 < bytes.length then .err .unexpectedEOF s else .err .eof s
      | some e' => .err e' s
      | none => .ok bytes s

/-- `stream.readFrameData`: refuse when no frame is open (`lim < 0`), else
read exactly `lim` bytes through the charging `stream.Read` path via
`io.ReadFull`. -/
def readFrameData (st : St) : Res (List Nat) :=
  if st.lim < 0 then .err .frameError st
  else ioReadFull st st.lim.toNat

/-- Result of `stream.writeVarint`: the emitted bytes (the unchecked write
path), or a Go `panic` (the `default` branch). -/
inductive WriteResult where
  | bytes (out : List Nat)
  | panicked (msg : String)
  deriving DecidableEq, Repr

/-- Go's `byte(v)` truncating conversion of an `int64`: the low 8 bits,
i.e. the Euclidean remainder mod 256 (in `[0, 256)` for any sign; `%` on
`Int` is `Int.emod`). -/
def goByte (v : Int) : Nat := (v % 256).toNat

/-- Go's arithmetic right shift `v >> k` on `int64`: floor division by
`2^k` (no 64-bit overflow arises in this code). -/
def sar (v : Int) (k : Nat) : Int := Int.fdiv v (2 ^ k)

/-- `stream.writeVarint`: emit the 1/2/4/8-byte QUIC varint encoding chosen
by magnitude, or panic (`"varint too large"`) past `2^62 - 1`.  The case
guards `(1<<6)-1`, `(1<<14)-1`, `(1<<30)-1`, `(1<<62)-1` are written as
powers of two. -/
def writeVarint (v : Int) : WriteResult :=
  if v ≤ 2 ^ 6 - 1 then
    .bytes [goByte v]
  else if v ≤ 2 ^ 14 - 1 then
    .bytes [(1 <<< 6) ||| goByte (sar v 8), goByte v]
  else if v ≤ 2 ^ 30 - 1 then
    .bytes [(2 <<< 6) ||| goByte (sar v 24), goByte (sar v 16),
            goByte (sar v 8), goByte v]
  else if v ≤ 2 ^ 62 - 1 then
    .bytes [(3 <<< 6) ||| goByte (sar v 56), goByte (sar v 48),
            goByte (sar v 40), goByte (sar v 32), goByte (sar v 24),
            goByte (sar v 16), goByte (sar v 8), goByte v]
  else
    .panicked "varint too large"

/-! ### Arithmetic helpers for the varint codec -/

/-- `byte(v)` of a non-negative value is `v % 256`. -/
lemma goByte_natCast (m : Nat) : goByte (m : Int) = m % 256 := by
  unfold goByte
  omega

/-- Floor division of a non-negative value is `Nat` division. -/
lemma sar_natCast (m k : Nat) : sar (m : Int) k = ((m / 2 ^ k : Nat) : Int) := by
  unfold sar
  rw [show ((2 : Int) ^ k) = ((2 ^ k : Nat) : Int) by push_cast; ring, ← Int.ofNat_fdiv]

/-- `byte(v >> k)` of a non-negative value is `v / 2^k % 256`. -/
lemma goByte_sar_natCast (m k : Nat) : goByte (sar (m : Int) k) = m / 2 ^ k % 256 := by
  rw [sar_natCast]
  unfold goByte
  omega

/-- `b &&& 63` is `b % 64`. -/
lemma land63 (b : Nat) : b &&& 63 = b % 64 := by
  have h := Nat.and_pow_two_sub_one_eq_mod b 6
  norm_num at h
  exact h

/-- Disjoint or of a length-tag byte with a low six-bit value is addition. -/
lemma lor_tag (c x : Nat) (hx : x < 64) : (c <<< 6) ||| x = c * 64 + x := by
  have h := Nat.mul_add_lt_is_or (i := 6) (b := x) (by norm_num; omega) c
  have hc : c <<< 6 = 2 ^ 6 * c := by rw [Nat.shiftLeft_eq]; ring
  calc (c <<< 6) ||| x = 2 ^ 6 * c ||| x := by rw [hc]
    _ = 2 ^ 6 * c + x := h.symm
    _ = c * 64 + x := by ring

/-- The varint accumulation step `(v << 8) | b` is `v * 256 + b` for a byte. -/
lemma shl8_or (a d : Nat) (hd : d < 256) : (a <<< 8) ||| d = a * 256 + d := by
  have h := Nat.mul_add_lt_is_or (i := 8) (b := d) (by norm_num; omega) a
  have ha : a <<< 8 = 2 ^ 8 * a := by rw [Nat.shiftLeft_eq]; ring
  calc (a <<< 8) ||| d = 2 ^ 8 * a ||| d := by rw [ha]
    _ = 2 ^ 8 * a + d := h.symm
    _ = a * 256 + d := by ring

/-- Every byte the encoder emits is below 256. -/
lemma goByte_lt (v : Int) : goByte v < 256 := by
  unfold goByte
  omega

/-! ### Claim theorems -/

/-- **C4.** Calling `readFrameHeader` while a frame is already open
(`lim ≥ 0`) fails with `errH3FrameError` and returns the state unchanged:
`remaining` is not altered and no transport byte is touched. -/
theorem readFrameHeader_nested_fails (st : St) (h : 0 ≤ st.lim) :
    readFrameHeader st = .err .frameError st := by
  unfold readFrameHeader
  simp [h]

/-- Witness for C4 at a concrete open-frame state. -/
theorem readFrameHeader_nested_fails_witness :
    readFrameHeader ⟨some [1, 2, 3], 0⟩ = .err .frameError ⟨some [1, 2, 3], 0⟩ :=
  readFrameHeader_nested_fails ⟨some [1, 2, 3], 0⟩ (by decide)

/-- **C6.** `endFrame` succeeds exactly when `lim = 0`, in which case it
resets `lim` to `-1`; for any other `lim` it fails with `errH3FrameError`
and leaves the state unchanged. -/
theorem endFrame_iff (st : St) :
    (endFrame st = .ok () { st with lim := -1 } ↔ st.lim = 0) ∧
    (st.lim ≠ 0 → endFrame st = .err .frameError st) := by
  unfold endFrame
  constructor
  · constructor
    · intro h
      by_contra hne
      simp [hne] at h
    · intro h
      simp [h]
  · intro h
    simp [h]

/-- Witness for C6: a zero-limit state re-arms, an under-read frame fails. -/
theorem endFrame_iff_witness :
    endFrame ⟨some [], 0⟩ = .ok () ⟨some [], -1⟩ ∧
    endFrame ⟨some [], 5⟩ = .err .frameError ⟨some [], 5⟩ :=
  ⟨(endFrame_iff ⟨some [], 0⟩).1.mpr rfl, (endFrame_iff ⟨some [], 5⟩).2 (by decide)⟩

/-- **C2 counterexample.** Encoding `v = 2^62` does not return an error to
the caller: `writeVarint` hits the `default` branch and panics (a Go
process abort), contradicting the claimed `IntegerTooLarge` error return. -/
theorem writeVarint_pow62_panics :
    writeVarint (2 ^ 62) = .panicked "varint too large" := by decide

/-- **C2 amended.** For every `v > 2^62 - 1`, `writeVarint` emits no output
bytes and never silently truncates, but it panics (`"varint too large"`,
aborting the process) instead of returning an explicit error. -/
theorem writeVarint_too_large (v : Int) (h : 2 ^ 62 - 1 < v) :
    writeVarint v = .panicked "varint too large" := by
  unfold writeVarint
  rw [if_neg (by omega), if_neg (by omega), if_neg (by omega), if_neg (by omega)]

/-- Witness for amended C2 at `v = 2^62 + 7`. -/
theorem writeVarint_too_large_witness :
    writeVarint (2 ^ 62 + 7) = .panicked "varint too large" :=
  writeVarint_too_large (2 ^ 62 + 7) (by norm_num)

/-- **C10.** For every negative `v`, `writeVarint` neither fails nor
panics: the first magnitude case `v ≤ 63` captures all negative values, and
exactly one byte — the low 8 bits of `v`, i.e. `v mod 256` — is written. -/
theorem writeVarint_negative (v : Int) (h : v < 0) :
    writeVarint v = .bytes [goByte v] := by
  unfold writeVarint
  rw [if_pos (by omega)]

/-- Witness for C10: `writeVarint (-1)` silently emits the single byte
`0xff`. -/
theorem writeVarint_negative_witness : writeVarint (-1) = .bytes [255] :=
  (writeVarint_negative (-1) (by norm_num)).trans (by decide)

/-- **C9.** The byte-level read charges the limit before touching the
transport: with `lim = 0` it fails with `errH3FrameError` and poisons the
framer whatever the transport holds (no byte is consumed), and when the
charge succeeds but the transport read then fails, `lim` stays decremented
by one. -/
theorem readByte_charges_first :
    (∀ strm : Option (List Nat),
      streamReadByte ⟨strm, 0⟩ = .err .frameError ⟨none, -1⟩) ∧
    (∀ lim : Int, 1 ≤ lim →
      streamReadByte ⟨some [], lim⟩ = .err .eof ⟨some [], lim - 1⟩) := by
  constructor
  · intro strm
    unfold streamReadByte recordBytesRead
    norm_num
  · intro lim hlim
    have h1 : ¬(lim < 0) := by omega
    have h2 : ¬(lim - 1 < 0) := by omega
    unfold streamReadByte recordBytesRead quicReadByte
    simp [h1, h2]

/-- Witness for C9 at concrete states. -/
theorem readByte_charges_first_witness :
    streamReadByte ⟨some [9, 8], 0⟩ = .err .frameError ⟨none, -1⟩ ∧
    streamReadByte ⟨some [], 5⟩ = .err .eof ⟨some [], 4⟩ := by
  refine ⟨readByte_charges_first.1 (some [9, 8]), ?_⟩
  have h := readByte_charges_first.2 5 (by norm_num)
  simpa using h

/-- **C3 counterexample.** A charge overrunning the limit does poison the
framer (`strm := none`, `errH3FrameError`), but the poisoned state is not
"every operation fails immediately without touching the transport": calling
`readFrameHeader` on the poisoned framer dereferences the nil transport
handle and panics instead of returning an error. -/
theorem poisoned_readFrameHeader_panics :
    recordBytesRead ⟨some [1, 2], 0⟩ 1 = .err .frameError ⟨none, -1⟩ ∧
    readFrameHeader ⟨none, -1⟩ = .panicked := by decide

/-- **C3 amended.** Any charge that exceeds the remaining limit poisons the
framer (the transport handle is discarded) and fails with
`errH3FrameError`.  Poisoned is absorbing, but only `endFrame` and
`readFrameData` then fail immediately; `readFrameHeader`, the byte-level
read and the block read panic on the nil transport handle rather than
returning an error. -/
theorem overcharge_poisons (st : St) (n : Nat) (h0 : 0 ≤ st.lim) (hn : st.lim < n) :
    recordBytesRead st n = .err .frameError ⟨none, st.lim - n⟩ ∧
    ∀ lim : Int, lim < 0 →
      endFrame ⟨none, lim⟩ = .err .frameError ⟨none, lim⟩ ∧
      readFrameData ⟨none, lim⟩ = .err .frameError ⟨none, lim⟩ ∧
      readFrameHeader ⟨none, lim⟩ = .panicked ∧
      streamReadByte ⟨none, lim⟩ = .panicked ∧
      ∀ len : Nat, streamRead ⟨none, lim⟩ len = .panicked := by
  constructor
  · have h1 : ¬(st.lim < 0) := by omega
    have h2 : st.lim - (n : Int) < 0 := by omega
    unfold recordBytesRead
    simp [h1, h2]
  · intro lim hlim
    have hne : lim ≠ 0 := by omega
    refine ⟨?_, ?_, ?_, ?_, ?_⟩
    · unfold endFrame
      simp [hne]
    · unfold readFrameData
      simp [hlim]
    · have h : ¬(0 ≤ lim) := by omega
      unfold readFrameHeader readVarint quicReadByte
      simp [h]
    · unfold streamReadByte recordBytesRead quicReadByte
      simp [hlim]
    · intro len
      unfold streamRead quicRead
      simp

/-- Witness for amended C3: a concrete overcharge, then the post-poison
behavior of `endFrame` and `readFrameHeader`. -/
theorem overcharge_poisons_witness :
    recordBytesRead ⟨some [3], 0⟩ 1 = .err .frameError ⟨none, -1⟩ ∧
    endFrame ⟨none, -1⟩ = .err .frameError ⟨none, -1⟩ ∧
    streamReadByte ⟨none, -1⟩ = .panicked := by
  have h := overcharge_poisons ⟨some [3], 0⟩ 1 (by decide) (by decide)
  have h2 := h.2 (-1) (by norm_num)
  exact ⟨by simpa using h.1, h2.1, h2.2.2.2.1⟩

/-- The `readVarint` byte loop fails with `errH3FrameError`, the transport
exhausted, when fewer bytes remain than the loop needs. -/
lemma readVarintLoop_short (v : Nat) (bs : List Nat) (lim : Int) (k : Nat)
    (h : bs.length < k) :
    readVarintLoop v ⟨some bs, lim⟩ k = .err .frameError ⟨some [], lim⟩ := by
  induction bs generalizing v k with
  | nil =>
    match k, h with
    | k + 1, _ => rfl
  | cons b bs ih =>
    match k, h with
    | k + 1, h =>
      show readVarintLoop ((v <<< 8) ||| b) ⟨some bs, lim⟩ k = _
      exact ih _ _ (by simpa using h)

/-- **C8.** A transport that ends mid-multi-byte-varint while decoding a
frame header (first byte announcing a 2/4/8-byte integer, fewer subsequent
bytes available) fails with `errH3FrameError`, never EOF; a transport that
ends cleanly with zero bytes read toward a new header reports `io.EOF`
(the clean end-of-stream value, not the protocol error). -/
theorem truncated_varint_vs_clean_eof :
    (∀ (b : Nat) (rest : List Nat), 64 ≤ b →
      rest.length < 1 <<< (b >>> 6) - 1 →
      readFrameHeader ⟨some (b :: rest), -1⟩ = .err .frameError ⟨some [], -1⟩) ∧
    readFrameHeader ⟨some [], -1⟩ = .err .eof ⟨some [], -1⟩ := by
  constructor
  · intro b rest hb hlen
    unfold readFrameHeader readVarint quicReadByte
    rw [if_neg (by norm_num)]
    simp only []
    rw [readVarintLoop_short _ _ _ _ hlen]
  · decide

/-- Witness for C8: an 8-byte varint header cut off after three bytes. -/
theorem truncated_varint_vs_clean_eof_witness :
    readFrameHeader ⟨some [192, 1, 2, 3], -1⟩ = .err .frameError ⟨some [], -1⟩ :=
  truncated_varint_vs_clean_eof.1 192 [1, 2, 3] (by norm_num) (by decide)

/-! ### Unfolding and evaluation lemmas for `io.ReadFull` -/

lemma readAtLeastLoop_zero (st : St) : readAtLeastLoop st 0 = .res [] none st := by
  simp [readAtLeastLoop]

lemma readAtLeastLoop_succ (st : St) (w : Nat) :
    readAtLeastLoop st (w + 1) =
      match streamRead st (w + 1) with
      | .panicked => .panicked
      | .err e s => .res [] (some e) s
      | .ok [] s => .res [] none s
      | .ok (b :: bs) s =>
        match readAtLeastLoop s ((w + 1) - (b :: bs).length) with
        | .panicked => .panicked
        | .res rest e s' => .res (b :: bs ++ rest) e s' := by
  rw [readAtLeastLoop]

/-- A charging `Read` whose buffer matches an available prefix exactly:
all of `bs` is delivered in one call and the limit is consumed to `0`. -/
lemma streamRead_exact (bs extra : List Nat) (N : Nat) (hN : bs.length = N)
    (hpos : 0 < N) :
    streamRead ⟨some (bs ++ extra), (N : Int)⟩ N = .ok bs ⟨some extra, 0⟩ := by
  subst hN
  cases bs with
  | nil => simp at hpos
  | cons b tl =>
    have h5 : ¬((tl.length : Int) + 1 < 0) := by omega
    unfold streamRead quicRead recordBytesRead
    simp [List.take_left, List.drop_left, h5]

/-- A charging `Read` on an exhausted transport passes `io.EOF` through. -/
lemma streamRead_eof (lim : Int) (len : Nat) (hpos : 0 < len) :
    streamRead ⟨some [], lim⟩ len = .err .eof ⟨some [], lim⟩ := by
  unfold streamRead quicRead
  simp [Nat.pos_iff_ne_zero.mp hpos]

/-- A charging `Read` whose buffer is larger than what the transport holds:
everything available is delivered and charged. -/
lemma streamRead_partial (bs : List Nat) (N : Nat) (hlt : bs.length < N)
    (hne : bs ≠ []) :
    streamRead ⟨some bs, (N : Int)⟩ N = .ok bs ⟨some [], (N : Int) - bs.length⟩ := by
  cases bs with
  | nil => exact absurd rfl hne
  | cons b tl =>
    have h1 : ¬N = 0 := by omega
    have h2 : ¬((N : Int) < 0) := by omega
    have h3 : (b :: tl).length ≤ N := by omega
    unfold streamRead quicRead recordBytesRead
    simp only [h1, if_false]
    rw [List.take_of_length_le h3, List.drop_eq_nil_of_le h3]
    have h4 : ¬((N : Int) - (b :: tl).length < 0) := by
      simp only [List.length_cons] at *
      omega
    have h5 : ¬((N : Int) < (tl.length : Int) + 1) := by
      simp only [List.length_cons] at hlt
      omega
    simp [h2, h4, h5]

/-- The `ReadAtLeast` loop on an exhausted transport stops at `io.EOF`. -/
lemma readAtLeastLoop_empty (lim : Int) (k : Nat) (hk : 0 < k) :
    readAtLeastLoop ⟨some [], lim⟩ k = .res [] (some .eof) ⟨some [], lim⟩ := by
  match k, hk with
  | w + 1, _ => rw [readAtLeastLoop_succ, streamRead_eof _ _ (by omega)]

/-- The `ReadAtLeast` loop when the transport holds exactly the wanted
prefix. -/
lemma readAtLeastLoop_exact (bs extra : List Nat) (N : Nat) (hN : bs.length = N) :
    readAtLeastLoop ⟨some (bs ++ extra), (N : Int)⟩ N = .res bs none ⟨some extra, 0⟩ := by
  match N, hN with
  | 0, hN =>
    rw [List.eq_nil_of_length_eq_zero hN]
    simpa using readAtLeastLoop_zero ⟨some extra, 0⟩
  | w + 1, hN =>
    match bs, hN with
    | b :: tl, hN =>
      rw [readAtLeastLoop_succ, streamRead_exact (b :: tl) extra (w + 1) hN (by omega)]
      have hlen : tl.length + 1 = w + 1 := by simpa using hN
      have hz : w + 1 - (b :: tl).length = 0 := by
        simp only [List.length_cons]
        omega
      dsimp only
      rw [hz, readAtLeastLoop_zero]
      simp

/-- The `ReadAtLeast` loop when the transport ends short of `N` bytes:
everything is delivered, the loop stops at `io.EOF`, and the limit retains
the shortfall. -/
lemma readAtLeastLoop_shortfall (bs : List Nat) (N : Nat) (hlt : bs.length < N) :
    readAtLeastLoop ⟨some bs, (N : Int)⟩ N =
      .res bs (some .eof) ⟨some [], (N : Int) - bs.length⟩ := by
  match N, hlt with
  | w + 1, hlt =>
    cases bs with
    | nil =>
      rw [readAtLeastLoop_succ, streamRead_eof _ _ (by omega)]
      simp
    | cons b tl =>
      rw [readAtLeastLoop_succ, streamRead_partial (b :: tl) (w + 1) hlt (by simp)]
      have hpos : 0 < w + 1 - (b :: tl).length := by
        simp only [List.length_cons] at *
        omega
      dsimp only
      rw [readAtLeastLoop_empty _ _ hpos]
      simp

/-- `io.ReadFull` for an exactly-available frame payload. -/
lemma ioReadFull_exact (bs extra : List Nat) (N : Nat) (hN : bs.length = N) :
    ioReadFull ⟨some (bs ++ extra), (N : Int)⟩ N = .ok bs ⟨some extra, 0⟩ := by
  unfold ioReadFull
  rw [readAtLeastLoop_exact bs extra N hN]
  simp [hN]

/-- `io.ReadFull` cut short by the end of the transport: `io.EOF` when
nothing arrived, `io.ErrUnexpectedEOF` after a partial read. -/
lemma ioReadFull_short (bs : List Nat) (N : Nat) (hlt : bs.length < N) :
    ioReadFull ⟨some bs, (N : Int)⟩ N =
      .err (if bs.length = 0 then .eof else .unexpectedEOF)
        ⟨some [], (N : Int) - bs.length⟩ := by
  unfold ioReadFull
  rw [readAtLeastLoop_shortfall bs N hlt]
  dsimp only
  have hn : ¬(N ≤ bs.length) := by omega
  rw [if_neg hn]
  by_cases h : bs.length = 0 <;> simp [h]

/-- **C5.** After `readFrameHeader` succeeds and arms the framer with a
frame of length `N` whose payload is available, reading exactly the `N`
payload bytes through the charging read path (`readFrameData` drives
`io.ReadFull` over `stream.Read`) and then calling `endFrame` succeeds and
re-arms the framer: `lim` returns to `-1`. -/
theorem frame_lifecycle (st s' : St) (t N : Nat) (bs extra : List Nat)
    (hdr : readFrameHeader st = .ok t s')
    (hlim : s'.lim = (N : Int))
    (hstrm : s'.strm = some (bs ++ extra))
    (hlen : bs.length = N) :
    readFrameData s' = .ok bs ⟨some extra, 0⟩ ∧
    endFrame ⟨some extra, 0⟩ = .ok () ⟨some extra, -1⟩ := by
  constructor
  · obtain ⟨strm', lim'⟩ := s'
    simp only at hlim hstrm
    subst hlim hstrm
    unfold readFrameData
    dsimp only
    rw [if_neg (show ¬((N : Int) < 0) by omega)]
    simpa using ioReadFull_exact bs extra N hlen
  · unfold endFrame
    simp

/-- Witness for C5: type-0 frame of length 2, payload `[9, 9]`, trailing
byte left on the transport. -/
theorem frame_lifecycle_witness :
    readFrameData ⟨some ([9, 9] ++ [7]), (2 : Int)⟩ = .ok [9, 9] ⟨some [7], 0⟩ ∧
    endFrame ⟨some [7], 0⟩ = .ok () ⟨some [7], -1⟩ :=
  frame_lifecycle ⟨some [0, 2, 9, 9, 7], -1⟩ ⟨some ([9, 9] ++ [7]), (2 : Int)⟩ 0 2
    [9, 9] [7] (by decide) rfl rfl rfl

/-- **C7 counterexample.** A transport ending before supplying the declared
frame length makes `readFrameData` fail with `io.ErrUnexpectedEOF` (passed
through from `io.ReadFull`), not with `errH3FrameError` as claimed. -/
theorem readFrameData_short_not_frameError :
    readFrameData ⟨some [5], 3⟩ = .err .unexpectedEOF ⟨some [], 2⟩ ∧
    Err.unexpectedEOF ≠ Err.frameError := by
  constructor
  · have h := ioReadFull_short [5] 3 (by decide)
    unfold readFrameData
    dsimp only
    rw [if_neg (show ¬((3 : Int) < 0) by norm_num)]
    norm_num at h ⊢
    exact h
  · decide

/-- **C7 amended.** `readFrameData` with no active frame fails with
`errH3FrameError`; with an active frame whose bytes are available it
returns exactly the remaining bytes in one call; and if the transport ends
short it fails with the end-of-stream errors `io.EOF` (nothing read) or
`io.ErrUnexpectedEOF` (partial read), not with `errH3FrameError`. -/
theorem readFrameData_spec :
    (∀ st : St, st.lim < 0 → readFrameData st = .err .frameError st) ∧
    (∀ (bs extra : List Nat) (N : Nat), bs.length = N →
      readFrameData ⟨some (bs ++ extra), (N : Int)⟩ = .ok bs ⟨some extra, 0⟩) ∧
    (∀ (bs : List Nat) (N : Nat), bs.length < N →
      readFrameData ⟨some bs, (N : Int)⟩ =
        .err (if bs.length = 0 then .eof else .unexpectedEOF)
          ⟨some [], (N : Int) - bs.length⟩) := by
  refine ⟨?_, ?_, ?_⟩
  · intro st h
    unfold readFrameData
    simp [h]
  · intro bs extra N hN
    unfold readFrameData
    dsimp only
    rw [if_neg (show ¬((N : Int) < 0) by omega)]
    simpa using ioReadFull_exact bs extra N hN
  · intro bs N hlt
    unfold readFrameData
    dsimp only
    rw [if_neg (show ¬((N : Int) < 0) by omega)]
    simpa using ioReadFull_short bs N hlt

/-- Witness for amended C7: no-frame failure, exact read, and a zero-byte
short read reporting `io.EOF`. -/
theorem readFrameData_spec_witness :
    readFrameData ⟨some [1], -1⟩ = .err .frameError ⟨some [1], -1⟩ ∧
    readFrameData ⟨some ([4, 5] ++ [6]), (2 : Int)⟩ = .ok [4, 5] ⟨some [6], 0⟩ ∧
    readFrameData ⟨some [], (2 : Int)⟩ = .err .eof ⟨some [], 2⟩ := by
  refine ⟨readFrameData_spec.1 ⟨some [1], -1⟩ (by decide),
    readFrameData_spec.2.1 [4, 5] [6] 2 rfl, ?_⟩
  have h := readFrameData_spec.2.2 [] 2 (by decide)
  simpa using h

/-! ### Varint decode evaluation lemmas -/

/-- One-step unfolding of `readVarint` on a non-empty transport. -/
lemma readVarint_cons (b : Nat) (rest : List Nat) (lim : Int) :
    readVarint ⟨some (b :: rest), lim⟩ =
      match readVarintLoop (b &&& 63) ⟨some rest, lim⟩ (1 <<< (b >>> 6) - 1) with
      | .panicked => .panicked
      | .err e s' => .err e s'
      | .ok v s' =>
        match recordBytesRead s' (1 <<< (b >>> 6)) with
        | .panicked => .panicked
        | .err e s'' => .err e s''
        | .ok _ s'' => .ok v s'' := rfl

/-- Decoding a one-byte varint (tag bits `00`). -/
lemma decode1 (b : Nat) (hb : b < 64) (extra : List Nat) :
    readVarint ⟨some (b :: extra), -1⟩ = .ok b ⟨some extra, -1⟩ := by
  rw [readVarint_cons]
  have h6 : b >>> 6 = 0 := by
    rw [Nat.shiftRight_eq_div_pow]
    omega
  have h63 : b &&& 63 = b := by
    rw [land63]
    omega
  rw [h6, h63]
  rfl

/-- Decoding a two-byte varint (tag bits `01`). -/
lemma decode2 (x d0 : Nat) (hx : x < 64) (hd0 : d0 < 256) (extra : List Nat) :
    readVarint ⟨some (((1 <<< 6) ||| x) :: d0 :: extra), -1⟩ =
      .ok (x * 256 + d0) ⟨some extra, -1⟩ := by
  rw [readVarint_cons, lor_tag 1 x hx]
  have h6 : (1 * 64 + x) >>> 6 = 1 := by
    rw [Nat.shiftRight_eq_div_pow]
    omega
  have h63 : (1 * 64 + x) &&& 63 = x := by
    rw [land63]
    omega
  rw [h6, h63]
  show Res.ok ((x <<< 8) ||| d0) ⟨some extra, -1⟩ = _
  rw [shl8_or x d0 hd0]

/-- Decoding a four-byte varint (tag bits `10`). -/
lemma decode4 (x d2 d1 d0 : Nat) (hx : x < 64) (hd2 : d2 < 256) (hd1 : d1 < 256)
    (hd0 : d0 < 256) (extra : List Nat) :
    readVarint ⟨some (((2 <<< 6) ||| x) :: d2 :: d1 :: d0 :: extra), -1⟩ =
      .ok (((x * 256 + d2) * 256 + d1) * 256 + d0) ⟨some extra, -1⟩ := by
  rw [readVarint_cons, lor_tag 2 x hx]
  have h6 : (2 * 64 + x) >>> 6 = 2 := by
    rw [Nat.shiftRight_eq_div_pow]
    omega
  have h63 : (2 * 64 + x) &&& 63 = x := by
    rw [land63]
    omega
  rw [h6, h63]
  show Res.ok ((((x <<< 8) ||| d2) <<< 8 ||| d1) <<< 8 ||| d0) ⟨some extra, -1⟩ = _
  rw [shl8_or x d2 hd2, shl8_or _ d1 hd1, shl8_or _ d0 hd0]

/-- Decoding an eight-byte varint (tag bits `11`). -/
lemma decode8 (x d6 d5 d4 d3 d2 d1 d0 : Nat) (hx : x < 64)
    (hd6 : d6 < 256) (hd5 : d5 < 256) (hd4 : d4 < 256) (hd3 : d3 < 256)
    (hd2 : d2 < 256) (hd1 : d1 < 256) (hd0 : d0 < 256) (extra : List Nat) :
    readVarint ⟨some (((3 <<< 6) ||| x) :: d6 :: d5 :: d4 :: d3 :: d2 :: d1 :: d0 :: extra), -1⟩ =
      .ok (((((((x * 256 + d6) * 256 + d5) * 256 + d4) * 256 + d3) * 256 + d2) * 256 + d1) *
        256 + d0) ⟨some extra, -1⟩ := by
  rw [readVarint_cons, lor_tag 3 x hx]
  have h6 : (3 * 64 + x) >>> 6 = 3 := by
    rw [Nat.shiftRight_eq_div_pow]
    omega
  have h63 : (3 * 64 + x) &&& 63 = x := by
    rw [land63]
    omega
  rw [h6, h63]
  show Res.ok ((((((((x <<< 8) ||| d6) <<< 8 ||| d5) <<< 8 ||| d4) <<< 8 ||| d3)
      <<< 8 ||| d2) <<< 8 ||| d1) <<< 8 ||| d0) ⟨some extra, -1⟩ = _
  rw [shl8_or x d6 hd6, shl8_or _ d5 hd5, shl8_or _ d4 hd4, shl8_or _ d3 hd3,
    shl8_or _ d2 hd2, shl8_or _ d1 hd1, shl8_or _ d0 hd0]

/-- **C1.** For every `0 ≤ v ≤ 2^62 - 1`, the bytes `writeVarint` emits
decode back to `v` via `readVarint` (with any trailing transport bytes left
untouched and the no-limit state preserved), and the emitted length is the
minimal form from the magnitude boundaries: 1 byte up to `2^6 - 1`, 2 bytes
up to `2^14 - 1`, 4 bytes up to `2^30 - 1`, 8 bytes up to `2^62 - 1`. -/
theorem varint_roundtrip (v : Int) (h0 : 0 ≤ v) (h1 : v ≤ 2 ^ 62 - 1) :
    ∃ out : List Nat,
      writeVarint v = .bytes out ∧
      (∀ extra : List Nat,
        readVarint ⟨some (out ++ extra), -1⟩ = .ok v.toNat ⟨some extra, -1⟩) ∧
      out.length = (if v ≤ 2 ^ 6 - 1 then 1 else if v ≤ 2 ^ 14 - 1 then 2
                    else if v ≤ 2 ^ 30 - 1 then 4 else 8) := by
  obtain ⟨m, rfl⟩ : ∃ m : Nat, v = (m : Int) := ⟨v.toNat, (Int.toNat_of_nonneg h0).symm⟩
  have hb : goByte (m : Int) = m % 256 := goByte_natCast m
  by_cases hc1 : m ≤ 63
  · have hg1 : (m : Int) ≤ 2 ^ 6 - 1 := by norm_num; omega
    refine ⟨[goByte (m : Int)], ?_, ?_, ?_⟩
    · unfold writeVarint
      rw [if_pos hg1]
    · intro extra
      have hbm : goByte (m : Int) = m := by omega
      simp only [List.cons_append, List.nil_append, hbm]
      rw [decode1 m (by omega) extra]
      simp
    · rw [if_pos hg1]
      simp
  · by_cases hc2 : m ≤ 16383
    · have hg1 : ¬((m : Int) ≤ 2 ^ 6 - 1) := by norm_num; omega
      have hg2 : (m : Int) ≤ 2 ^ 14 - 1 := by norm_num; omega
      have hx : goByte (sar (m : Int) 8) = m / 256 := by
        rw [goByte_sar_natCast]
        norm_num
        omega
      refine ⟨[(1 <<< 6) ||| goByte (sar (m : Int) 8), goByte (m : Int)], ?_, ?_, ?_⟩
      · unfold writeVarint
        rw [if_neg hg1, if_pos hg2]
      · intro extra
        simp only [List.cons_append, List.nil_append, hx, hb]
        rw [decode2 (m / 256) (m % 256) (by omega) (by omega) extra]
        simp only [Int.toNat_ofNat, Res.ok.injEq, and_true]
        omega
      · rw [if_neg hg1, if_pos hg2]
        simp
    · by_cases hc3 : m ≤ 1073741823
      · have hg1 : ¬((m : Int) ≤ 2 ^ 6 - 1) := by norm_num; omega
        have hg2 : ¬((m : Int) ≤ 2 ^ 14 - 1) := by norm_num; omega
        have hg3 : (m : Int) ≤ 2 ^ 30 - 1 := by norm_num; omega
        have hx : goByte (sar (m : Int) 24) = m / 16777216 := by
          rw [goByte_sar_natCast]
          norm_num
          omega
        have h16 : goByte (sar (m : Int) 16) = m / 65536 % 256 := by
          rw [goByte_sar_natCast]
          norm_num
        have h8 : goByte (sar (m : Int) 8) = m / 256 % 256 := by
          rw [goByte_sar_natCast]
          norm_num
        refine ⟨[(2 <<< 6) ||| goByte (sar (m : Int) 24), goByte (sar (m : Int) 16),
          goByte (sar (m : Int) 8), goByte (m : Int)], ?_, ?_, ?_⟩
        · unfold writeVarint
          rw [if_neg hg1, if_neg hg2, if_pos hg3]
        · intro extra
          simp only [List.cons_append, List.nil_append, hx, h16, h8, hb]
          rw [decode4 (m / 16777216) (m / 65536 % 256) (m / 256 % 256) (m % 256)
            (by omega) (by omega) (by omega) (by omega) extra]
          simp only [Int.toNat_ofNat, Res.ok.injEq, and_true]
          omega
        · rw [if_neg hg1, if_neg hg2, if_pos hg3]
          simp
      · have hm62 : m ≤ 4611686018427387903 := by
          norm_num at h1
          exact h1
        have hg1 : ¬((m : Int) ≤ 2 ^ 6 - 1) := by norm_num; omega
        have hg2 : ¬((m : Int) ≤ 2 ^ 14 - 1) := by norm_num; omega
        have hg3 : ¬((m : Int) ≤ 2 ^ 30 - 1) := by norm_num; omega
        have hg4 : (m : Int) ≤ 2 ^ 62 - 1 := by norm_num; omega
        have hx : goByte (sar (m : Int) 56) = m / 72057594037927936 := by
          rw [goByte_sar_natCast]
          norm_num
          omega
        have h48 : goByte (sar (m : Int) 48) = m / 281474976710656 % 256 := by
          rw [goByte_sar_natCast]
          norm_num
        have h40 : goByte (sar (m : Int) 40) = m / 1099511627776 % 256 := by
          rw [goByte_sar_natCast]
          norm_num
        have h32 : goByte (sar (m : Int) 32) = m / 4294967296 % 256 := by
          rw [goByte_sar_natCast]
          norm_num
        have h24 : goByte (sar (m : Int) 24) = m / 16777216 % 256 := by
          rw [goByte_sar_natCast]
          norm_num
        have h16 : goByte (sar (m : Int) 16) = m / 65536 % 256 := by
          rw [goByte_sar_natCast]
          norm_num
        have h8 : goByte (sar (m : Int) 8) = m / 256 % 256 := by
          rw [goByte_sar_natCast]
          norm_num
        refine ⟨[(3 <<< 6) ||| goByte (sar (m : Int) 56), goByte (sar (m : Int) 48),
          goByte (sar (m : Int) 40), goByte (sar (m : Int) 32), goByte (sar (m : Int) 24),
          goByte (sar (m : Int) 16), goByte (sar (m : Int) 8), goByte (m : Int)], ?_, ?_, ?_⟩
        · unfold writeVarint
          rw [if_neg hg1, if_neg hg2, if_neg hg3, if_pos hg4]
        · intro extra
          simp only [List.cons_append, List.nil_append, hx, h48, h40, h32, h24, h16, h8, hb]
          rw [decode8 (m / 72057594037927936) (m / 281474976710656 % 256)
            (m / 1099511627776 % 256) (m / 4294967296 % 256) (m / 16777216 % 256)
            (m / 65536 % 256) (m / 256 % 256) (m % 256)
            (by omega) (by omega) (by omega) (by omega) (by omega) (by omega)
            (by omega) (by omega) extra]
          simp only [Int.toNat_ofNat, Res.ok.injEq, and_true]
          omega
        · rw [if_neg hg1, if_neg hg2, if_neg hg3]
          simp

/-- Witness for C1 at `v = 300`: a two-byte encoding that round-trips. -/
theorem varint_roundtrip_witness :
    ∃ out : List Nat,
      writeVarint 300 = .bytes out ∧
      (∀ extra : List Nat,
        readVarint ⟨some (out ++ extra), -1⟩ = .ok (Int.toNat 300) ⟨some extra, -1⟩) ∧
      out.length = (if (300 : Int) ≤ 2 ^ 6 - 1 then 1 else if (300 : Int) ≤ 2 ^ 14 - 1 then 2
                    else if (300 : Int) ≤ 2 ^ 30 - 1 then 4 else 8) :=
  varint_roundtrip 300 (by norm_num) (by norm_num)

end Http3
